import Mathlib

/-!
Verification of `tools/generate_large_dicom.py`.

The script is embedded shallowly:

* Python strings become `List Char` (wrapped in `String` at the outer API);
* Python `float(...)` values arising from decimal literals are represented
  exactly as numerator/denominator pairs `Int × Nat`: a decimal literal
  `abc.def` denotes the exact rational `abcdef / 10 ^ 3`, and the script
  only multiplies such values by powers of two, which binary64 performs
  exactly.  The only deviation from the float semantics is the initial
  rounding of the literal itself, which is exact for every concrete input
  used below and for all literals of up to 15 significant digits whose
  scaled product is not within one part in 2 ^ 53 of an integer; value
  statements about fractional literals are made under this exact-rational
  reading of the literal;
* `int(x)` on a float is truncation toward zero;
* Python `//` on integers is flooring division, `Int.fdiv`;
* numpy `astype(np.uint16)` on a float truncates toward zero and wraps
  modulo 2 ^ 16 (the C-cast behaviour numpy exhibits for out-of-range
  values);
* the fallible paths are modelled with `Option`: `float`/`int` raising
  `ValueError` on malformed strings, `int(np.sqrt(negative))` raising on
  NaN, and `np.sqrt` raising on a Python integer of at least `2 ^ 64`,
  which numpy cannot convert to a float array (an `OverflowError`, or a
  `TypeError` on the object dtype in older numpy).
-/

/-- Whitespace characters removed by the Python method `str.strip()`
(ASCII subset: space, tab, newline, carriage return, vertical tab,
form feed). -/
def isPySpace (c : Char) : Bool :=
  c == ' ' || c == '\t' || c == '\n' || c == '\r' || c == '\x0b' || c == '\x0c'

/-- Python `str.strip()`: drop leading and trailing whitespace. -/
def pyStrip (s : List Char) : List Char :=
  ((s.dropWhile isPySpace).reverse.dropWhile isPySpace).reverse

/-- Python `str.upper()` on one character, restricted to ASCII letters
(the only letters the size grammar involves). -/
def pyUpperChar (c : Char) : Char :=
  match c with
  | 'a' => 'A'
  | 'b' => 'B'
  | 'c' => 'C'
  | 'd' => 'D'
  | 'e' => 'E'
  | 'f' => 'F'
  | 'g' => 'G'
  | 'h' => 'H'
  | 'i' => 'I'
  | 'j' => 'J'
  | 'k' => 'K'
  | 'l' => 'L'
  | 'm' => 'M'
  | 'n' => 'N'
  | 'o' => 'O'
  | 'p' => 'P'
  | 'q' => 'Q'
  | 'r' => 'R'
  | 's' => 'S'
  | 't' => 'T'
  | 'u' => 'U'
  | 'v' => 'V'
  | 'w' => 'W'
  | 'x' => 'X'
  | 'y' => 'Y'
  | 'z' => 'Z'
  | c => c

/-- Python `str.upper()` on a whole string. -/
def pyUpper (s : List Char) : List Char := s.map pyUpperChar

/-- Numeric value of a run of decimal digits (most significant first). -/
def digitsVal (ds : List Char) : Nat :=
  ds.foldl (fun a c => a * 10 + (c.toNat - 48)) 0

/-- Unsigned part of the Python `float(...)` literal grammar:
`digits`, `digits.`, `digits.digits` or `.digits` (exponents, infinities
and digit-group underscores are outside the fragment the script relies
on).  The result is the exact value as numerator and denominator. -/
def parseUnsignedFloat (s : List Char) : Option (Nat × Nat) :=
  let intPart := s.takeWhile Char.isDigit
  let rest := s.dropWhile Char.isDigit
  match rest with
  | [] => if intPart.isEmpty then none else some (digitsVal intPart, 1)
  | '.' :: frac =>
    if (intPart.isEmpty && frac.isEmpty) || !(frac.all Char.isDigit) then none
    else some (digitsVal intPart * 10 ^ frac.length + digitsVal frac, 10 ^ frac.length)
  | _ => none

/-- Python `float(s)`: strip whitespace, optional sign, unsigned literal.
`none` models `ValueError`. -/
def pyFloat (s : List Char) : Option (Int × Nat) :=
  match pyStrip s with
  | '-' :: r => (parseUnsignedFloat r).map (fun p => (-(p.1 : Int), p.2))
  | '+' :: r => (parseUnsignedFloat r).map (fun p => ((p.1 : Int), p.2))
  | r => (parseUnsignedFloat r).map (fun p => ((p.1 : Int), p.2))

/-- Unsigned part of the Python `int(...)` string grammar: a nonempty run
of decimal digits. -/
def parseUnsignedDigits (s : List Char) : Option Nat :=
  if s.isEmpty || !(s.all Char.isDigit) then none else some (digitsVal s)

/-- Python `int(s)` on a string: strip whitespace, optional sign, digits
only (a decimal point is rejected).  `none` models `ValueError`. -/
def pyIntStr (s : List Char) : Option Int :=
  match pyStrip s with
  | '-' :: r => (parseUnsignedDigits r).map (fun k : Nat => -(k : Int))
  | '+' :: r => (parseUnsignedDigits r).map (fun k : Nat => (k : Int))
  | r => (parseUnsignedDigits r).map (fun k : Nat => (k : Int))

/-- Python `int(x)` applied to the exact value `num / den`: truncation
toward zero. -/
def truncDivInt (num : Int) (den : Nat) : Int :=
  if num < 0 then -(((-num).toNat / den : Nat) : Int) else ((num.toNat / den : Nat) : Int)

/-- Python slice `s[:-2]`, dropping the two-letter unit suffix. -/
def dropRight2 (s : List Char) : List Char := s.take (s.length - 2)

/-- Branch structure of `parse_size` (lines 31 to 39) applied to the
already uppercased and stripped size string: try the suffixes MB, GB, KB
in that order, scaling the float value by binary multiples, otherwise
treat the whole string as an integer byte count. -/
def parseSizeStripped (s : List Char) : Option Int :=
  if List.isSuffixOf ['M', 'B'] s then
    (pyFloat (dropRight2 s)).map (fun p => truncDivInt (p.1 * 1024 * 1024) p.2)
  else if List.isSuffixOf ['G', 'B'] s then
    (pyFloat (dropRight2 s)).map (fun p => truncDivInt (p.1 * 1024 * 1024 * 1024) p.2)
  else if List.isSuffixOf ['K', 'B'] s then
    (pyFloat (dropRight2 s)).map (fun p => truncDivInt (p.1 * 1024) p.2)
  else pyIntStr s

/-- Body of `parse_size` over character lists: `size_str.upper().strip()`
followed by the suffix dispatch. -/
def parseSizeChars (s : List Char) : Option Int :=
  parseSizeStripped (pyStrip (pyUpper s))

/-- The function `parse_size` (lines 27 to 39). -/
def parse_size (s : String) : Option Int := parseSizeChars s.data

/-- DICOM header overhead estimate of `calculate_dimensions`
(line 45): `10 * 1024` bytes. -/
def header_overhead : Int := 10 * 1024

/-- Total pixel count of `calculate_dimensions` (lines 46 to 50) with the
default `bits_per_pixel = 16`, so `bytes_per_pixel = 16 // 8 = 2` (the
script never overrides the default): Python flooring division of the
payload estimate by 2. -/
def total_pixels (target_size_bytes : Int) : Int :=
  Int.fdiv (target_size_bytes - header_overhead) 2

/-- Aspect-ratio tier selection and pre-clamp dimensions of
`calculate_dimensions` (lines 55 to 69), defined on the total pixel
counts that survive the two raise paths guarded in
`calculate_dimensions_raw` (so `0 ≤ n < 2 ^ 64`).  `int(np.sqrt(n))`
is modelled by the integer square root: the two coincide for `n` below
`2 ^ 52`, and beyond that they can differ only by the final rounding of
the correctly rounded binary64 square root (at most one), which none of
the properties stated below depends on: the square-root tiers are
clamped before being returned, and both functions are monotone. -/
def dims_pre_clamp (n : Nat) : Nat × Nat :=
  if n < 512 * 512 then (Nat.sqrt n, Nat.sqrt n)
  else if n < 1024 * 1024 then (1024, n / 1024)
  else if n < 2048 * 2048 then (2048, n / 2048)
  else (Nat.sqrt n, Nat.sqrt n)

/-- Lines 44 to 69 of `calculate_dimensions`: the two raise paths of
`int(np.sqrt(total_pixels))` are modelled as `none`.  When the total
pixel count is negative the first tier applies, the square root is NaN
and `int` raises `ValueError`; when the total pixel count is at least
`2 ^ 64 = 18446744073709551616` the fourth tier applies (such a count
exceeds `2048 * 2048`) and `np.sqrt` raises because numpy cannot
convert so large a Python integer to a float array.  Otherwise the
tiered dimensions are produced. -/
def calculate_dimensions_raw (target_size_bytes : Int) : Option (Nat × Nat) :=
  if total_pixels target_size_bytes < 0 then none
  else if 18446744073709551616 ≤ (total_pixels target_size_bytes).toNat then none
  else some (dims_pre_clamp (total_pixels target_size_bytes).toNat)

/-- Clamp of lines 72 to 73: `max(256, min(8192, d))`. -/
def clamp_dim (d : Nat) : Nat := max 256 (min 8192 d)

/-- The function `calculate_dimensions` (lines 41 to 75): tiered
dimensions followed by the clamp into `[256, 8192]`. -/
def calculate_dimensions (target_size_bytes : Int) : Option (Nat × Nat) :=
  (calculate_dimensions_raw target_size_bytes).map
    (fun p => (clamp_dim p.1, clamp_dim p.2))

/-- Aspect-ratio tier index of a nonnegative total pixel count, mirroring
the comparison chain of lines 55, 58 and 62. -/
def tierOf (n : Nat) : Nat :=
  if n < 512 * 512 then 0
  else if n < 1024 * 1024 then 1
  else if n < 2048 * 2048 then 2
  else 3

/-- Mean of the normal draw for the CT lung regions (line 110). -/
def ct_lung_mean : Int := -1000

/-- Standard deviation of the normal draw for the CT lung regions
(line 110). -/
def ct_lung_std : Int := 100

/-- numpy cast `astype(np.uint16)` applied to a float with exact value
`num / den`: truncate toward zero, then wrap modulo `2 ^ 16`. -/
def astype_uint16 (num : Int) (den : Nat) : Nat :=
  ((truncDivInt num den) % 65536).toNat

/-- numpy `np.clip(v, lo, hi)` on an unsigned sample. -/
def np_clip (v lo hi : Nat) : Nat := min hi (max lo v)

/-- Stored pixel value for a CT lung-region sample whose underlying
normal draw has exact value `num / den` (lines 110 and 113): the draw is
cast to `uint16` when assigned into the image array, and the final
`np.clip(image, 0, 65535)` is applied afterwards. -/
def ct_lung_pixel (num : Int) (den : Nat) : Nat :=
  np_clip (astype_uint16 num den) 0 65535

/-- C4: the four documented example values of `parse_size`. -/
theorem parse_size_examples :
    parse_size "100MB" = some 104857600 ∧ parse_size "1GB" = some 1073741824 ∧
    parse_size "500KB" = some 512000 ∧ parse_size "12345" = some 12345 := by
  decide

/-- C1 (failing input): a lung-region draw at the distribution mean
-1000 is cast to `uint16` before the clip and wraps to 64536, and the
three-sigma band [-1300, -700] lands in [64236, 64836], the top of the
16-bit range, not near 0 as the specification intends. -/
theorem ct_lung_pixels_wrap_high :
    ct_lung_pixel ct_lung_mean 1 = 64536 ∧
    ct_lung_pixel (ct_lung_mean - 3 * ct_lung_std) 1 = 64236 ∧
    ct_lung_pixel (ct_lung_mean + 3 * ct_lung_std) 1 = 64836 := by
  decide

lemma calculate_dimensions_raw_eq_some {t : Int} {p : Nat × Nat}
    (h : calculate_dimensions_raw t = some p) :
    0 ≤ total_pixels t ∧ p = dims_pre_clamp (total_pixels t).toNat := by
  unfold calculate_dimensions_raw at h
  split_ifs at h with g g2
  cases h
  exact ⟨by omega, rfl⟩

lemma total_pixels_eq (t : Int) : total_pixels t = (t - 10240) / 2 := by
  unfold total_pixels header_overhead
  rw [Int.fdiv_eq_ediv _ (by omega)]
  norm_num

/-- C5: whenever `calculate_dimensions` returns a plan, both dimensions
lie in the closed interval [256, 8192]. -/
theorem calculate_dimensions_dims_in_range (t : Int) (w h : Nat)
    (hwh : calculate_dimensions t = some (w, h)) :
    256 ≤ w ∧ w ≤ 8192 ∧ 256 ≤ h ∧ h ≤ 8192 := by
  unfold calculate_dimensions at hwh
  rcases hr : calculate_dimensions_raw t with _ | ⟨a, b⟩
  · rw [hr] at hwh
    cases hwh
  · rw [hr] at hwh
    simp only [Option.map_some'] at hwh
    have h1 : clamp_dim a = w := congrArg Prod.fst ((Option.some.injEq _ _).mp hwh)
    have h2 : clamp_dim b = h := congrArg Prod.snd ((Option.some.injEq _ _).mp hwh)
    unfold clamp_dim at h1 h2
    omega

/-- C5 witness: the bounds hold for the plan computed at one megabyte. -/
theorem calculate_dimensions_dims_in_range_witness :
    256 ≤ 1024 ∧ 1024 ≤ 8192 ∧ 256 ≤ 507 ∧ 507 ≤ 8192 :=
  calculate_dimensions_dims_in_range 1048576 1024 507 (by decide)

/-- C9 (counterexample): the claim says a plan is returned exactly when
the target is at least 10240 bytes, but at the concrete target
`2 ^ 65 + 10240` the total pixel count reaches `2 ^ 64`, numpy cannot
convert it for the square root, and no plan is returned although the
target is far above 10240. -/
theorem calculate_dimensions_none_at_huge_target :
    (calculate_dimensions 36893488147419113472).isSome = false ∧
    (10240 : Int) ≤ 36893488147419113472 := by decide

/-- C9 (amended): below 10240 bytes the total pixel count is negative
and `calculate_dimensions` raises (square root of a negative count)
rather than returning a plan; it returns a plan exactly when
`10240 ≤ target < 2 ^ 65 + 10240 = 36893488147419113472` (at or beyond
the upper bound the total pixel count reaches `2 ^ 64` and the square
root raises again, because numpy cannot convert the Python integer). -/
theorem calculate_dimensions_some_iff_in_range (t : Int) :
    (calculate_dimensions t).isSome = true ↔
      (10240 ≤ t ∧ t < 36893488147419113472) := by
  unfold calculate_dimensions calculate_dimensions_raw
  rw [total_pixels_eq]
  split_ifs with g g2
  · simp only [Option.map_none', Option.isSome_none, Bool.false_eq_true, false_iff]
    omega
  · simp only [Option.map_none', Option.isSome_none, Bool.false_eq_true, false_iff]
    omega
  · simp only [Option.map_some', Option.isSome_some, true_iff]
    omega

/-- C9 witness: a plan is produced at exactly 10240 bytes and refused at
10239 bytes. -/
theorem calculate_dimensions_some_iff_in_range_witness :
    (calculate_dimensions 10240).isSome = true ∧
    ¬((calculate_dimensions 10239).isSome = true) :=
  ⟨(calculate_dimensions_some_iff_in_range 10240).mpr (by decide),
   fun h => absurd ((calculate_dimensions_some_iff_in_range 10239).mp h) (by decide)⟩

lemma dims_pre_clamp_area_mono {n1 n2 : Nat} (hn : n1 ≤ n2)
    (ht : tierOf n1 = tierOf n2) :
    (dims_pre_clamp n1).1 * (dims_pre_clamp n1).2 ≤
      (dims_pre_clamp n2).1 * (dims_pre_clamp n2).2 := by
  unfold tierOf at ht
  unfold dims_pre_clamp
  split_ifs at ht ⊢ <;>
    first
      | omega
      | exact Nat.mul_le_mul (Nat.sqrt_le_sqrt hn) (Nat.sqrt_le_sqrt hn)

/-- C7: within one aspect-ratio tier the pre-clamp pixel count of
`calculate_dimensions` is monotone in the target size. -/
theorem calculate_dimensions_area_monotone (t1 t2 : Int) (p1 p2 : Nat × Nat)
    (h1 : calculate_dimensions_raw t1 = some p1)
    (h2 : calculate_dimensions_raw t2 = some p2)
    (htier : tierOf (total_pixels t1).toNat = tierOf (total_pixels t2).toNat)
    (hle : t1 ≤ t2) :
    p1.1 * p1.2 ≤ p2.1 * p2.2 := by
  obtain ⟨hnn1, rfl⟩ := calculate_dimensions_raw_eq_some h1
  obtain ⟨hnn2, rfl⟩ := calculate_dimensions_raw_eq_some h2
  refine dims_pre_clamp_area_mono ?_ htier
  simp only [total_pixels_eq] at hnn1 hnn2 ⊢
  omega

/-- C7 witness: two targets in the 1024-wide tier give monotone areas. -/
theorem calculate_dimensions_area_monotone_witness :
    1024 * 507 ≤ 1024 * 1019 :=
  calculate_dimensions_area_monotone 1048576 2097152 (1024, 507) (1024, 1019)
    (by decide) (by decide) (by decide) (by decide)

/-- Well-known DICOM storage class UID `pydicom.uid.CTImageStorage`. -/
def CTImageStorage : String := "1.2.840.10008.5.1.4.1.1.2"

/-- Well-known DICOM storage class UID `pydicom.uid.MRImageStorage`. -/
def MRImageStorage : String := "1.2.840.10008.5.1.4.1.1.4"

/-- The five identifier fields the specification discusses, as set by
`create_dicom_file`. -/
structure FileUIDs where
  mediaStorageSOPClassUID : String
  mediaStorageSOPInstanceUID : String
  implementationClassUID : String
  studyInstanceUID : String
  seriesInstanceUID : String

/-- UID assignments of `create_dicom_file` (lines 184, 185, 187, 203 and
211).  The library call `generate_uid()` is modelled as drawing the next
value from a supply `gen` at successive positions `c`, `c + 1`, ...; one
invocation of `create_dicom_file` consumes four supply positions, in the
order the four `generate_uid()` calls appear.  The storage class UID is
not generated: it is the fixed constant `CTImageStorage` for CT and
`MRImageStorage` otherwise. -/
def create_dicom_file_uids (gen : Nat → String) (c : Nat) (modality : String) : FileUIDs :=
  { mediaStorageSOPClassUID := if modality = "CT" then CTImageStorage else MRImageStorage
    mediaStorageSOPInstanceUID := gen c
    implementationClassUID := gen (c + 1)
    studyInstanceUID := gen (c + 2)
    seriesInstanceUID := gen (c + 3) }

/-- The four fields of one file that come from `generate_uid()`. -/
def generatedUIDs (f : FileUIDs) : List String :=
  [f.mediaStorageSOPInstanceUID, f.implementationClassUID,
   f.studyInstanceUID, f.seriesInstanceUID]

/-- Concrete UID supply in the style of the pydicom `generate_uid`
prefix, used to instantiate the freshness theorem. -/
def demo_gen (n : Nat) : String :=
  "1.2.826.0.1.3680043.8.498." ++ String.mk (List.replicate n '0')

lemma demo_gen_length (n : Nat) : (demo_gen n).length = 26 + n := by
  unfold demo_gen
  rw [String.length_append]
  have h1 : (String.mk (List.replicate n '0')).length = n := by
    simp [String.length, List.length_replicate]
  have h2 : ("1.2.826.0.1.3680043.8.498." : String).length = 26 := by decide
  omega

lemma demo_gen_inj : Function.Injective demo_gen := by
  intro a b h
  have h2 := congrArg String.length h
  rw [demo_gen_length, demo_gen_length] at h2
  omega

lemma demo_gen_ne_CT (n : Nat) : demo_gen n ≠ CTImageStorage := by
  intro h
  have h2 := congrArg String.length h
  rw [demo_gen_length] at h2
  have h3 : (CTImageStorage).length = 25 := by decide
  omega

lemma demo_gen_ne_MR (n : Nat) : demo_gen n ≠ MRImageStorage := by
  intro h
  have h2 := congrArg String.length h
  rw [demo_gen_length] at h2
  have h3 : (MRImageStorage).length = 25 := by decide
  omega

/-- C2 (counterexample): the storage class identifier is not freshly
generated; it is the same fixed constant in two different invocations,
so identifiers are reused across invocations. -/
theorem sop_class_uid_reused_across_invocations :
    (create_dicom_file_uids demo_gen 0 "CT").mediaStorageSOPClassUID =
      (create_dicom_file_uids demo_gen 4 "CT").mediaStorageSOPClassUID ∧
    (create_dicom_file_uids demo_gen 0 "CT").mediaStorageSOPClassUID =
      CTImageStorage := by
  constructor <;> rfl

/-- C2 (amended): the instance, implementation, study and series
identifiers are freshly generated: pairwise distinct within one
invocation and disjoint from those of any later invocation, and distinct
from the storage class identifier; the storage class identifier itself
is the fixed well-known constant selected by the modality. -/
theorem create_dicom_file_uids_fresh (gen : Nat → String)
    (hg : Function.Injective gen)
    (hct : ∀ n, gen n ≠ CTImageStorage) (hmr : ∀ n, gen n ≠ MRImageStorage)
    (c1 c2 : Nat) (hc : c1 + 4 ≤ c2) (m1 m2 : String) :
    (generatedUIDs (create_dicom_file_uids gen c1 m1)).Pairwise (fun a b => a ≠ b) ∧
    (∀ u ∈ generatedUIDs (create_dicom_file_uids gen c1 m1),
        u ∉ generatedUIDs (create_dicom_file_uids gen c2 m2)) ∧
    (∀ u ∈ generatedUIDs (create_dicom_file_uids gen c1 m1),
        u ≠ (create_dicom_file_uids gen c1 m1).mediaStorageSOPClassUID) ∧
    (create_dicom_file_uids gen c1 m1).mediaStorageSOPClassUID =
      (if m1 = "CT" then CTImageStorage else MRImageStorage) := by
  have hne : ∀ a b : Nat, a ≠ b → gen a ≠ gen b := fun a b hab h => hab (hg h)
  refine ⟨?_, ?_, ?_, rfl⟩
  · simp only [generatedUIDs, create_dicom_file_uids, List.pairwise_cons,
      List.mem_cons, List.not_mem_nil, or_false, List.mem_singleton]
    refine ⟨?_, ?_, ?_, fun a h => h.elim, List.Pairwise.nil⟩
    · rintro u (rfl | rfl | rfl)
      · exact hne _ _ (by omega)
      · exact hne _ _ (by omega)
      · exact hne _ _ (by omega)
    · rintro u (rfl | rfl)
      · exact hne _ _ (by omega)
      · exact hne _ _ (by omega)
    · rintro u rfl
      exact hne _ _ (by omega)
  · simp only [generatedUIDs, create_dicom_file_uids, List.mem_cons,
      List.not_mem_nil, or_false, List.mem_singleton]
    rintro u (rfl | rfl | rfl | rfl) <;>
      · push_neg
        refine ⟨?_, ?_, ?_, ?_⟩ <;> exact hne _ _ (by omega)
  · simp only [generatedUIDs, create_dicom_file_uids, List.mem_cons,
      List.not_mem_nil, or_false, List.mem_singleton]
    rintro u (rfl | rfl | rfl | rfl) <;>
      · split_ifs
        · exact hct _
        · exact hmr _

/-- C2 witness: the freshness theorem instantiated at the concrete
supply `demo_gen` and two consecutive invocations. -/
theorem create_dicom_file_uids_fresh_witness :
    (create_dicom_file_uids demo_gen 0 "CT").mediaStorageSOPInstanceUID ∉
      generatedUIDs (create_dicom_file_uids demo_gen 4 "CT") ∧
    (create_dicom_file_uids demo_gen 0 "CT").mediaStorageSOPClassUID =
      (if ("CT" : String) = "CT" then CTImageStorage else MRImageStorage) := by
  have h := create_dicom_file_uids_fresh demo_gen demo_gen_inj demo_gen_ne_CT
    demo_gen_ne_MR 0 4 (by omega) "CT" "CT"
  exact ⟨h.2.1 _ (by simp [generatedUIDs]), h.2.2.2⟩

/-- Accepted values of the `--modality` flag (line 284,
`choices=['CT', 'MR', 'US']`). -/
def modality_choices : List String := ["CT", "MR", "US"]

/-- The argparse validation of `--modality`: a value outside `choices`
makes `parse_args()` fail with an invalid-choice error before the body
of `main` runs. -/
def parse_args_modality (m : String) : Except String String :=
  if m ∈ modality_choices then Except.ok m
  else Except.error ("argument --modality: invalid choice: " ++ m)

/-- Pipeline of `main` up to the RasterPlan: argument parsing runs first
(line 289, before the try block), then `parse_size` (line 292), then
`calculate_dimensions` (line 173, inside `create_dicom_file`); raster
synthesis only happens after all of these.  The model stops at the plan
because everything after it is the random synthesis. -/
def main_model (size modality : String) : Except String (Nat × Nat) :=
  match parse_args_modality modality with
  | Except.error e => Except.error e
  | Except.ok _ =>
    match parse_size size with
    | none => Except.error "invalid size"
    | some t =>
      match calculate_dimensions t with
      | none => Except.error "cannot convert float NaN to integer"
      | some wh => Except.ok wh

/-- C8: the invocation surface accepts exactly the modalities CT, MR and
US, and any other value is rejected before any synthesis step, whatever
the size argument is. -/
theorem modality_rejected_before_synthesis :
    (∀ m : String, (parse_args_modality m).isOk = true ↔
        (m = "CT" ∨ m = "MR" ∨ m = "US")) ∧
    (∀ size m : String, ¬(m = "CT" ∨ m = "MR" ∨ m = "US") →
        main_model size m =
          Except.error ("argument --modality: invalid choice: " ++ m)) := by
  constructor
  · intro m
    unfold parse_args_modality
    split_ifs with h
    · have h2 : m = "CT" ∨ m = "MR" ∨ m = "US" := by
        simpa [modality_choices] using h
      simp [Except.isOk, Except.toBool, h2]
    · have h2 : ¬(m = "CT" ∨ m = "MR" ∨ m = "US") := by
        simpa [modality_choices] using h
      simp [Except.isOk, Except.toBool, h2]
  · intro size m hm
    have h : m ∉ modality_choices := by simpa [modality_choices] using hm
    unfold main_model parse_args_modality
    rw [if_neg h]

/-- C8 witness: CT is accepted, and the unknown modality XA is rejected
with the invalid-choice error before any plan or synthesis. -/
theorem modality_rejected_witness :
    (parse_args_modality "CT").isOk = true ∧
    main_model "100MB" "XA" =
      Except.error ("argument --modality: invalid choice: " ++ "XA") :=
  ⟨(modality_rejected_before_synthesis.1 "CT").mpr (Or.inl rfl),
   modality_rejected_before_synthesis.2 "100MB" "XA" (by decide)⟩

lemma mem_of_mem_pyStrip {c : Char} {l : List Char} (h : c ∈ pyStrip l) :
    c ∈ l := by
  unfold pyStrip at h
  rw [List.mem_reverse] at h
  have h1 := (List.dropWhile_sublist _).subset h
  rw [List.mem_reverse] at h1
  exact (List.dropWhile_sublist _).subset h1

lemma pyUpperChar_minus {c : Char} (h : pyUpperChar c = '-') : c = '-' := by
  unfold pyUpperChar at h
  split at h <;> first | exact h | exact absurd h (by decide)

lemma pyUpperChar_space {c : Char} (h : isPySpace c = true) :
    pyUpperChar c = c := by
  have h2 : ((((c = ' ' ∨ c = '\t') ∨ c = '\n') ∨ c = '\r') ∨ c = '\x0b') ∨ c = '\x0c' := by
    simpa [isPySpace] using h
  rcases h2 with ((((rfl | rfl) | rfl) | rfl) | rfl) | rfl <;> decide

lemma pyUpper_no_minus {s : List Char} (hs : ∀ c ∈ s, c ≠ '-') :
    ∀ c ∈ pyUpper s, c ≠ '-' := by
  intro c hc
  obtain ⟨c0, hc0, rfl⟩ := List.mem_map.mp hc
  intro hEq
  exact hs c0 hc0 (pyUpperChar_minus hEq)

lemma pyFloat_nonneg {l : List Char} {num : Int} {den : Nat}
    (hm : ∀ c ∈ l, c ≠ '-') (h : pyFloat l = some (num, den)) : 0 ≤ num := by
  unfold pyFloat at h
  split at h
  · rename_i r heq
    exfalso
    refine hm '-' ?_ rfl
    apply mem_of_mem_pyStrip
    rw [heq]
    exact List.mem_cons_self _ _
  · obtain ⟨⟨a, b⟩, _, hab⟩ := Option.map_eq_some'.mp h
    cases hab
    exact Int.natCast_nonneg a
  · obtain ⟨⟨a, b⟩, _, hab⟩ := Option.map_eq_some'.mp h
    cases hab
    exact Int.natCast_nonneg a

lemma pyIntStr_nonneg {l : List Char} {n : Int}
    (hm : ∀ c ∈ l, c ≠ '-') (h : pyIntStr l = some n) : 0 ≤ n := by
  unfold pyIntStr at h
  split at h
  · rename_i r heq
    exfalso
    refine hm '-' ?_ rfl
    apply mem_of_mem_pyStrip
    rw [heq]
    exact List.mem_cons_self _ _
  · obtain ⟨a, _, hab⟩ := Option.map_eq_some'.mp h
    have hb : ((a : Nat) : Int) = n := hab
    omega
  · obtain ⟨a, _, hab⟩ := Option.map_eq_some'.mp h
    have hb : ((a : Nat) : Int) = n := hab
    omega

lemma truncDivInt_nonneg {num : Int} {den : Nat} (h : 0 ≤ num) :
    0 ≤ truncDivInt num den := by
  unfold truncDivInt
  rw [if_neg (by omega : ¬ num < 0)]
  exact Int.natCast_nonneg _

/-- C3 (counterexample): the string `-1` is accepted by `parse_size` and
yields the negative byte count -1. -/
theorem parse_size_accepts_negative :
    parse_size "-1" = some (-1) ∧ ((-1 : Int) < 0) := by decide

/-- C3 (amended): every accepted size string yields an integer byte
count, and the count is nonnegative whenever the string contains no
minus sign; minus-signed literals are also accepted and produce negative
counts. -/
theorem parse_size_nonneg_without_minus (s : List Char) (n : Int)
    (hs : ∀ c ∈ s, c ≠ '-') (h : parseSizeChars s = some n) : 0 ≤ n := by
  have ht : ∀ c ∈ pyStrip (pyUpper s), c ≠ '-' :=
    fun c hc => pyUpper_no_minus hs c (mem_of_mem_pyStrip hc)
  have htd : ∀ c ∈ dropRight2 (pyStrip (pyUpper s)), c ≠ '-' :=
    fun c hc => ht c ((List.take_sublist _ _).subset hc)
  unfold parseSizeChars parseSizeStripped at h
  split_ifs at h with h1 h2 h3
  · obtain ⟨⟨num, den⟩, hf, rfl⟩ := Option.map_eq_some'.mp h
    have hn := pyFloat_nonneg htd hf
    exact truncDivInt_nonneg (by omega)
  · obtain ⟨⟨num, den⟩, hf, rfl⟩ := Option.map_eq_some'.mp h
    have hn := pyFloat_nonneg htd hf
    exact truncDivInt_nonneg (by omega)
  · obtain ⟨⟨num, den⟩, hf, rfl⟩ := Option.map_eq_some'.mp h
    have hn := pyFloat_nonneg htd hf
    exact truncDivInt_nonneg (by omega)
  · exact pyIntStr_nonneg ht h

/-- C3 witness: the amended statement instantiated at the minus-free
input 100MB. -/
theorem parse_size_nonneg_without_minus_witness :
    (∀ c ∈ ("100MB").data, c ≠ '-') ∧ 0 ≤ (104857600 : Int) :=
  ⟨by decide,
   parse_size_nonneg_without_minus ("100MB").data 104857600 (by decide) (by decide)⟩

lemma dropWhile_append_of_all {p : Char → Bool} (l : List Char) :
    ∀ ws : List Char, (∀ c ∈ ws, p c = true) →
      List.dropWhile p (ws ++ l) = List.dropWhile p l := by
  intro ws
  induction ws with
  | nil => intro _; rfl
  | cons a t ih =>
    intro hws
    have ha : p a = true := hws a (List.mem_cons_self _ _)
    simp only [List.cons_append, List.dropWhile_cons, ha, if_true]
    exact ih (fun c hc => hws c (List.mem_cons_of_mem _ hc))

lemma dropWhile_append_distrib {p : Char → Bool} (l1 l2 : List Char) :
    List.dropWhile p (l1 ++ l2) =
      if (List.dropWhile p l1).isEmpty then List.dropWhile p l2
      else List.dropWhile p l1 ++ l2 := by
  induction l1 with
  | nil => simp
  | cons a t ih =>
    by_cases hp : p a = true
    · simp only [List.cons_append, List.dropWhile_cons, hp, if_true]
      exact ih
    · have hp2 : p a = false := by simpa using hp
      simp [List.dropWhile_cons, hp2]

lemma pyStrip_append_ws {ws1 ws2 s : List Char}
    (h1 : ∀ c ∈ ws1, isPySpace c = true) (h2 : ∀ c ∈ ws2, isPySpace c = true) :
    pyStrip (ws1 ++ s ++ ws2) = pyStrip s := by
  unfold pyStrip
  rw [List.append_assoc, dropWhile_append_of_all (s ++ ws2) ws1 h1]
  rw [dropWhile_append_distrib]
  by_cases hd : (List.dropWhile isPySpace s).isEmpty = true
  · rw [if_pos hd]
    have hw2 : List.dropWhile isPySpace ws2 = [] :=
      List.dropWhile_eq_nil_iff.mpr h2
    have hs0 : List.dropWhile isPySpace s = [] := by
      cases hE : List.dropWhile isPySpace s with
      | nil => rfl
      | cons x xs => rw [hE] at hd; simp at hd
    rw [hw2, hs0]
  · rw [if_neg hd]
    rw [List.reverse_append]
    rw [dropWhile_append_of_all ((List.dropWhile isPySpace s).reverse) ws2.reverse
      (fun c hc => h2 c (List.mem_reverse.mp hc))]

/-- C6: parsing is case-insensitive and whitespace-tolerant: any two
size strings with the same uppercased image parse to the same result
(in particular strings differing only in letter case), and surrounding
whitespace never changes the result. -/
theorem parse_size_case_and_whitespace_insensitive :
    (∀ s t : List Char, pyUpper s = pyUpper t →
        parseSizeChars s = parseSizeChars t) ∧
    (∀ ws1 ws2 s : List Char, (∀ c ∈ ws1, isPySpace c = true) →
        (∀ c ∈ ws2, isPySpace c = true) →
        parseSizeChars (ws1 ++ s ++ ws2) = parseSizeChars s) := by
  constructor
  · intro s t h
    unfold parseSizeChars
    rw [h]
  · intro ws1 ws2 s h1 h2
    unfold parseSizeChars
    have e1 : pyUpper (ws1 ++ s ++ ws2) = pyUpper ws1 ++ pyUpper s ++ pyUpper ws2 := by
      simp [pyUpper, List.map_append]
    rw [e1]
    have hw1 : ∀ c ∈ pyUpper ws1, isPySpace c = true := by
      intro c hc
      obtain ⟨c0, hc0, rfl⟩ := List.mem_map.mp hc
      rw [pyUpperChar_space (h1 c0 hc0)]
      exact h1 c0 hc0
    have hw2 : ∀ c ∈ pyUpper ws2, isPySpace c = true := by
      intro c hc
      obtain ⟨c0, hc0, rfl⟩ := List.mem_map.mp hc
      rw [pyUpperChar_space (h2 c0 hc0)]
      exact h2 c0 hc0
    rw [pyStrip_append_ws hw1 hw2]

/-- C6 witness: the lowercase variant 100mb and the padded variant with
surrounding spaces both agree with 100MB. -/
theorem parse_size_case_ws_witness :
    parseSizeChars ("100mb").data = parseSizeChars ("100MB").data ∧
    parseSizeChars (" 100MB ").data = parseSizeChars ("100MB").data := by
  constructor
  · exact parse_size_case_and_whitespace_insensitive.1 _ _ (by decide)
  · have e : (" 100MB ").data = [' '] ++ ("100MB").data ++ [' '] := by decide
    rw [e]
    exact parse_size_case_and_whitespace_insensitive.2 [' '] [' '] (("100MB").data)
      (by decide) (by decide)

lemma pyUpperChar_digit {c : Char} (h : c.isDigit = true) : pyUpperChar c = c := by
  unfold pyUpperChar
  split <;> first | rfl | simp_all

lemma isPySpace_digit {c : Char} (h : c.isDigit = true) : isPySpace c = false := by
  cases hsp : isPySpace c
  · rfl
  · exfalso
    have h6 : ((((c = ' ' ∨ c = '\t') ∨ c = '\n') ∨ c = '\r') ∨ c = '\x0b') ∨ c = '\x0c' := by
      simpa [isPySpace] using hsp
    rcases h6 with ((((rfl | rfl) | rfl) | rfl) | rfl) | rfl <;> exact absurd h (by decide)

lemma dropWhile_eq_self_of_all_neg {p : Char → Bool} {l : List Char}
    (h : ∀ c ∈ l, p c = false) : List.dropWhile p l = l := by
  cases l with
  | nil => rfl
  | cons a t => simp [List.dropWhile_cons, h a (List.mem_cons_self _ _)]

lemma pyStrip_eq_self {l : List Char} (h : ∀ c ∈ l, isPySpace c = false) :
    pyStrip l = l := by
  unfold pyStrip
  rw [dropWhile_eq_self_of_all_neg h,
    dropWhile_eq_self_of_all_neg (fun c hc => h c (List.mem_reverse.mp hc)),
    List.reverse_reverse]

lemma pyUpper_eq_self {l : List Char} (h : ∀ c ∈ l, pyUpperChar c = c) :
    pyUpper l = l := by
  unfold pyUpper
  rw [List.map_congr_left h]
  exact List.map_id l

lemma mem_of_head_eq {l : List Char} {b : Char} (h : l.head? = some b) : b ∈ l := by
  cases l with
  | nil => cases h
  | cons a t =>
    simp only [List.head?_cons, Option.some.injEq] at h
    rw [← h]
    exact List.mem_cons_self _ _

lemma takeWhile_append_stop {p : Char → Bool} {a : Char} (ha : p a = false) (l2 : List Char) :
    ∀ l1 : List Char, (∀ c ∈ l1, p c = true) →
      List.takeWhile p (l1 ++ a :: l2) = l1 := by
  intro l1
  induction l1 with
  | nil =>
    intro _
    simp [List.takeWhile_cons, ha]
  | cons b t ih =>
    intro h1
    have hb : p b = true := h1 b (List.mem_cons_self _ _)
    simp only [List.cons_append, List.takeWhile_cons, hb, if_true]
    rw [ih (fun c hc => h1 c (List.mem_cons_of_mem _ hc))]

lemma dropWhile_append_stop {p : Char → Bool} {a : Char} (ha : p a = false) (l2 : List Char) :
    ∀ l1 : List Char, (∀ c ∈ l1, p c = true) →
      List.dropWhile p (l1 ++ a :: l2) = a :: l2 := by
  intro l1
  induction l1 with
  | nil =>
    intro _
    simp [List.dropWhile_cons, ha]
  | cons b t ih =>
    intro h1
    have hb : p b = true := h1 b (List.mem_cons_self _ _)
    simp only [List.cons_append, List.dropWhile_cons, hb, if_true]
    exact ih (fun c hc => h1 c (List.mem_cons_of_mem _ hc))

lemma parseUnsignedFloat_frac {ip fp : List Char}
    (hip : ∀ c ∈ ip, c.isDigit = true) (hfp : ∀ c ∈ fp, c.isDigit = true)
    (hne : ¬(ip = [] ∧ fp = [])) :
    parseUnsignedFloat (ip ++ '.' :: fp) =
      some (digitsVal ip * 10 ^ fp.length + digitsVal fp, 10 ^ fp.length) := by
  have hdot : Char.isDigit '.' = false := by decide
  have ht := takeWhile_append_stop hdot fp ip hip
  have hd := dropWhile_append_stop hdot fp ip hip
  have h1 : fp.all Char.isDigit = true := List.all_eq_true.mpr hfp
  have h2 : (ip.isEmpty && fp.isEmpty) = false := by
    rcases Bool.eq_false_or_eq_true (ip.isEmpty && fp.isEmpty) with h | h
    · exfalso
      rw [Bool.and_eq_true, List.isEmpty_iff, List.isEmpty_iff] at h
      exact hne h
    · exact h
  simp only [parseUnsignedFloat, ht, hd, h1, h2]
  simp

lemma pyFloat_no_sign {l : List Char}
    (hm : (pyStrip l).head? ≠ some '-') (hp : (pyStrip l).head? ≠ some '+') :
    pyFloat l = (parseUnsignedFloat (pyStrip l)).map (fun p => ((p.1 : Int), p.2)) := by
  unfold pyFloat
  split
  · rename_i r heq
    exact absurd (by rw [heq]; rfl) hm
  · rename_i r heq
    exact absurd (by rw [heq]; rfl) hp
  · rfl

lemma pyIntStr_no_sign {l : List Char}
    (hm : (pyStrip l).head? ≠ some '-') (hp : (pyStrip l).head? ≠ some '+') :
    pyIntStr l = (parseUnsignedDigits (pyStrip l)).map (fun k : Nat => (k : Int)) := by
  unfold pyIntStr
  split
  · rename_i r heq
    exact absurd (by rw [heq]; rfl) hm
  · rename_i r heq
    exact absurd (by rw [heq]; rfl) hp
  · rfl

lemma isSuffixOf_append_pair (x : List Char) (a b : Char) :
    List.isSuffixOf [a, b] (x ++ [a, b]) = true :=
  List.isSuffixOf_iff_suffix.mpr ⟨x, rfl⟩

lemma isSuffixOf_pair_false_of_pair {a a2 : Char} (b : Char) (x : List Char) (hne : a ≠ a2) :
    List.isSuffixOf [a, b] (x ++ [a2, b]) = false := by
  cases hc : List.isSuffixOf [a, b] (x ++ [a2, b])
  · rfl
  · exfalso
    obtain ⟨t, ht⟩ := List.isSuffixOf_iff_suffix.mp hc
    have h2 := congrArg List.reverse ht
    simp only [List.reverse_append, List.reverse_cons, List.reverse_nil, List.nil_append,
      List.cons_append, List.append_assoc] at h2
    rw [List.cons.injEq, List.cons.injEq] at h2
    exact hne h2.2.1

lemma isSuffixOf_pair_false_of_not_mem {a b : Char} {l : List Char} (h : b ∉ l) :
    List.isSuffixOf [a, b] l = false := by
  cases hc : List.isSuffixOf [a, b] l
  · rfl
  · exfalso
    obtain ⟨t, ht⟩ := List.isSuffixOf_iff_suffix.mp hc
    refine h ?_
    rw [← ht]
    simp

lemma dropRight2_append_pair (u : List Char) (a b : Char) :
    dropRight2 (u ++ [a, b]) = u := by
  unfold dropRight2
  rw [List.length_append]
  simp only [List.length_cons, List.length_nil, Nat.zero_add]
  rw [(by omega : u.length + 2 - 2 = u.length)]
  exact List.take_left u [a, b]

lemma truncDivInt_natCast (m den : Nat) :
    truncDivInt (m : Int) den = ((m / den : Nat) : Int) := by
  unfold truncDivInt
  rw [if_neg (by omega : ¬ (m : Int) < 0), Int.toNat_natCast]

lemma frac_chars_core {ip fp : List Char}
    (hip : ∀ c ∈ ip, c.isDigit = true) (hfp : ∀ c ∈ fp, c.isDigit = true) :
    ∀ c ∈ ip ++ '.' :: fp, (pyUpperChar c = c ∧ isPySpace c = false) := by
  intro c hc
  rcases List.mem_append.mp hc with hc | hc
  · exact ⟨pyUpperChar_digit (hip c hc), isPySpace_digit (hip c hc)⟩
  · rcases List.mem_cons.mp hc with rfl | hc
    · exact ⟨by decide, by decide⟩
    · exact ⟨pyUpperChar_digit (hfp c hc), isPySpace_digit (hfp c hc)⟩

lemma frac_suffix_chars {ip fp : List Char}
    (hip : ∀ c ∈ ip, c.isDigit = true) (hfp : ∀ c ∈ fp, c.isDigit = true)
    (a b : Char)
    (hab : pyUpperChar a = a ∧ isPySpace a = false ∧
      pyUpperChar b = b ∧ isPySpace b = false) :
    ∀ c ∈ (ip ++ '.' :: fp) ++ [a, b], (pyUpperChar c = c ∧ isPySpace c = false) := by
  intro c hc
  rcases List.mem_append.mp hc with hc | hc
  · exact frac_chars_core hip hfp c hc
  · rcases List.mem_cons.mp hc with rfl | hc
    · exact ⟨hab.1, hab.2.1⟩
    · rcases List.mem_cons.mp hc with rfl | hc
      · exact ⟨hab.2.2.1, hab.2.2.2⟩
      · cases hc

lemma frac_not_mem {ip fp : List Char}
    (hip : ∀ c ∈ ip, c.isDigit = true) (hfp : ∀ c ∈ fp, c.isDigit = true)
    {b : Char} (hb1 : b.isDigit = false) (hb2 : b ≠ '.') :
    b ∉ ip ++ '.' :: fp := by
  intro hc
  rcases List.mem_append.mp hc with hc | hc
  · rw [hip b hc] at hb1
    cases hb1
  · rcases List.mem_cons.mp hc with h | hc
    · exact hb2 h
    · rw [hfp b hc] at hb1
      cases hb1

lemma pyFloat_frac {ip fp : List Char}
    (hip : ∀ c ∈ ip, c.isDigit = true) (hfp : ∀ c ∈ fp, c.isDigit = true)
    (hne : ¬(ip = [] ∧ fp = [])) :
    pyFloat (ip ++ '.' :: fp) =
      some (((digitsVal ip * 10 ^ fp.length + digitsVal fp : Nat) : Int),
        10 ^ fp.length) := by
  have hstrip : pyStrip (ip ++ '.' :: fp) = ip ++ '.' :: fp :=
    pyStrip_eq_self (fun c hc => (frac_chars_core hip hfp c hc).2)
  have hm : (pyStrip (ip ++ '.' :: fp)).head? ≠ some '-' := by
    rw [hstrip]
    intro h
    exact frac_not_mem hip hfp (by decide) (by decide) (mem_of_head_eq h)
  have hp : (pyStrip (ip ++ '.' :: fp)).head? ≠ some '+' := by
    rw [hstrip]
    intro h
    exact frac_not_mem hip hfp (by decide) (by decide) (mem_of_head_eq h)
  rw [pyFloat_no_sign hm hp, hstrip, parseUnsignedFloat_frac hip hfp hne]
  rfl

/-- C10: with a KB, MB or GB suffix, `parse_size` accepts every
fractional literal (a run of digits, a decimal point and a run of
digits, not both runs empty) and returns the scaled product truncated
to an integer: reading the literal exactly as the rational
`(digitsVal ip * 10 ^ k + digitsVal fp) / 10 ^ k` with `k` the number
of fraction digits, the result is the floor of that value times the
binary multiplier.  A fractional literal with no suffix is always
rejected, because `int(...)` refuses the decimal point. -/
theorem parse_size_fractional_general :
    (∀ ip fp : List Char, (∀ c ∈ ip, c.isDigit = true) →
        (∀ c ∈ fp, c.isDigit = true) → ¬(ip = [] ∧ fp = []) →
        parseSizeChars ((ip ++ '.' :: fp) ++ ['K', 'B']) =
          some ((((digitsVal ip * 10 ^ fp.length + digitsVal fp) * 1024 /
            10 ^ fp.length : Nat) : Int)) ∧
        parseSizeChars ((ip ++ '.' :: fp) ++ ['M', 'B']) =
          some ((((digitsVal ip * 10 ^ fp.length + digitsVal fp) * 1024 * 1024 /
            10 ^ fp.length : Nat) : Int)) ∧
        parseSizeChars ((ip ++ '.' :: fp) ++ ['G', 'B']) =
          some ((((digitsVal ip * 10 ^ fp.length + digitsVal fp) * 1024 * 1024 * 1024 /
            10 ^ fp.length : Nat) : Int))) ∧
    (∀ ip fp : List Char, (∀ c ∈ ip, c.isDigit = true) →
        (∀ c ∈ fp, c.isDigit = true) →
        parseSizeChars (ip ++ '.' :: fp) = none) := by
  constructor
  · intro ip fp hip hfp hne
    refine ⟨?_, ?_, ?_⟩
    · have hfix := frac_suffix_chars hip hfp 'K' 'B' (by decide)
      have hupper := pyUpper_eq_self (fun c hc => (hfix c hc).1)
      have hstrip := pyStrip_eq_self (fun c hc => (hfix c hc).2)
      have sMB : List.isSuffixOf ['M', 'B'] ((ip ++ '.' :: fp) ++ ['K', 'B']) = false :=
        isSuffixOf_pair_false_of_pair 'B' (ip ++ '.' :: fp) (by decide)
      have sGB : List.isSuffixOf ['G', 'B'] ((ip ++ '.' :: fp) ++ ['K', 'B']) = false :=
        isSuffixOf_pair_false_of_pair 'B' (ip ++ '.' :: fp) (by decide)
      unfold parseSizeChars
      rw [hupper, hstrip]
      unfold parseSizeStripped
      rw [if_neg (by rw [sMB]; decide), if_neg (by rw [sGB]; decide),
        if_pos (isSuffixOf_append_pair (ip ++ '.' :: fp) 'K' 'B'),
        dropRight2_append_pair, pyFloat_frac hip hfp hne]
      simp only [Option.map_some']
      have hc2 : ((digitsVal ip * 10 ^ fp.length + digitsVal fp : Nat) : Int) * 1024 =
          (((digitsVal ip * 10 ^ fp.length + digitsVal fp) * 1024 : Nat) : Int) := by
        push_cast
        ring
      rw [hc2, truncDivInt_natCast]
    · have hfix := frac_suffix_chars hip hfp 'M' 'B' (by decide)
      have hupper := pyUpper_eq_self (fun c hc => (hfix c hc).1)
      have hstrip := pyStrip_eq_self (fun c hc => (hfix c hc).2)
      unfold parseSizeChars
      rw [hupper, hstrip]
      unfold parseSizeStripped
      rw [if_pos (isSuffixOf_append_pair (ip ++ '.' :: fp) 'M' 'B'),
        dropRight2_append_pair, pyFloat_frac hip hfp hne]
      simp only [Option.map_some']
      have hc2 : ((digitsVal ip * 10 ^ fp.length + digitsVal fp : Nat) : Int) * 1024 * 1024 =
          (((digitsVal ip * 10 ^ fp.length + digitsVal fp) * 1024 * 1024 : Nat) : Int) := by
        push_cast
        ring
      rw [hc2, truncDivInt_natCast]
    · have hfix := frac_suffix_chars hip hfp 'G' 'B' (by decide)
      have hupper := pyUpper_eq_self (fun c hc => (hfix c hc).1)
      have hstrip := pyStrip_eq_self (fun c hc => (hfix c hc).2)
      have sMB : List.isSuffixOf ['M', 'B'] ((ip ++ '.' :: fp) ++ ['G', 'B']) = false :=
        isSuffixOf_pair_false_of_pair 'B' (ip ++ '.' :: fp) (by decide)
      unfold parseSizeChars
      rw [hupper, hstrip]
      unfold parseSizeStripped
      rw [if_neg (by rw [sMB]; decide),
        if_pos (isSuffixOf_append_pair (ip ++ '.' :: fp) 'G' 'B'),
        dropRight2_append_pair, pyFloat_frac hip hfp hne]
      simp only [Option.map_some']
      have hc2 : ((digitsVal ip * 10 ^ fp.length + digitsVal fp : Nat) : Int) *
            1024 * 1024 * 1024 =
          (((digitsVal ip * 10 ^ fp.length + digitsVal fp) * 1024 * 1024 * 1024 :
            Nat) : Int) := by
        push_cast
        ring
      rw [hc2, truncDivInt_natCast]
  · intro ip fp hip hfp
    have hcore := frac_chars_core hip hfp
    have hstrip : pyStrip (ip ++ '.' :: fp) = ip ++ '.' :: fp :=
      pyStrip_eq_self (fun c hc => (hcore c hc).2)
    have hB : ('B' : Char) ∉ ip ++ '.' :: fp :=
      frac_not_mem hip hfp (by decide) (by decide)
    have s1 : List.isSuffixOf ['M', 'B'] (ip ++ '.' :: fp) = false :=
      isSuffixOf_pair_false_of_not_mem hB
    have s2 : List.isSuffixOf ['G', 'B'] (ip ++ '.' :: fp) = false :=
      isSuffixOf_pair_false_of_not_mem hB
    have s3 : List.isSuffixOf ['K', 'B'] (ip ++ '.' :: fp) = false :=
      isSuffixOf_pair_false_of_not_mem hB
    have hm : (pyStrip (ip ++ '.' :: fp)).head? ≠ some '-' := by
      rw [hstrip]
      intro h
      exact frac_not_mem hip hfp (by decide) (by decide) (mem_of_head_eq h)
    have hp : (pyStrip (ip ++ '.' :: fp)).head? ≠ some '+' := by
      rw [hstrip]
      intro h
      exact frac_not_mem hip hfp (by decide) (by decide) (mem_of_head_eq h)
    unfold parseSizeChars
    rw [pyUpper_eq_self (fun c hc => (hcore c hc).1), hstrip]
    unfold parseSizeStripped
    rw [if_neg (by simp [s1]), if_neg (by simp [s2]), if_neg (by simp [s3]),
      pyIntStr_no_sign hm hp, hstrip]
    have hall : (ip ++ '.' :: fp).all Char.isDigit = false := by
      cases hA : (ip ++ '.' :: fp).all Char.isDigit
      · rfl
      · exfalso
        have hdot := List.all_eq_true.mp hA '.' (by simp)
        exact absurd hdot (by decide)
    unfold parseUnsignedDigits
    rw [hall]
    simp

/-- C10 witness: the general theorem instantiated at the example inputs
`1.5MB` and `1.5`. -/
theorem parse_size_fractional_general_witness :
    parse_size "1.5MB" = some 1572864 ∧ parse_size "1.5" = none := by
  constructor
  · have h := (parse_size_fractional_general.1 ['1'] ['5']
      (by decide) (by decide) (by decide)).2.1
    have e : ("1.5MB").data = (['1'] ++ '.' :: ['5']) ++ ['M', 'B'] := by decide
    show parseSizeChars ("1.5MB").data = some 1572864
    rw [e, h]
    decide
  · have h := parse_size_fractional_general.2 ['1'] ['5'] (by decide) (by decide)
    have e : ("1.5").data = ['1'] ++ '.' :: ['5'] := by decide
    show parseSizeChars ("1.5").data = none
    rw [e, h]
